import Mathlib

/- A shallow embedding of the whorl single-file async executor (src/lib.rs).
   Covered parts of the source: the `Sleep` future (mod futures), the `Lazy`
   once-initialization primitive (mod lazy), and the runtime (mod runtime):
   the task queue, the `Spawner`, the `Task` with its live-task counter and
   `Wake` implementation, and the scheduler loop of `Runtime::start`.
   Wall-clock readings (`SystemTime`) are modelled as natural numbers of
   nanoseconds since the epoch; a Rust panic is modelled as an error value. -/

namespace Whorl

/-- Result of polling a future: `std::task::Poll` with a unit payload
    (`Ready(())` or `Pending`). -/
inductive PollR where
  | Ready
  | Pending
deriving DecidableEq

/-! ## mod futures: the Sleep future -/

/-- `futures::Sleep`: a creation timestamp `now` (a `SystemTime`, modelled as
    nanoseconds since the epoch) and a duration `ms` in milliseconds. -/
structure Sleep where
  now : Nat
  ms : Nat
deriving DecidableEq

/-- `Sleep::new(ms)`: records the wall-clock reading `t` at creation time as
    `now` and stores the requested duration `ms`. -/
def Sleep.new (t ms : Nat) : Sleep := { now := t, ms := ms }

/-- `SystemTime::elapsed` evaluated when the wall clock reads `t`: `Ok` with
    the elapsed duration in nanoseconds when the clock has not gone backwards
    past the stored reading, `Err` (modelled as `none`) otherwise. -/
def Sleep.elapsed (s : Sleep) (t : Nat) : Option Nat :=
  if s.now ≤ t then some (t - s.now) else none

/-- `Duration::as_millis` for a duration of `ns` nanoseconds: truncating
    division by 10^6. -/
def asMillis (ns : Nat) : Nat := ns / 1000000

/-- `Sleep::poll` evaluated when the wall clock reads `t`: the source computes
    `self.now.elapsed().unwrap().as_millis() >= self.ms`, answering `Ready` in
    that case and `Pending` otherwise. The `none` result models the panic of
    `.unwrap()` when `elapsed` returns `Err`. -/
def Sleep.poll (s : Sleep) (t : Nat) : Option PollR :=
  match s.elapsed t with
  | none => none
  | some e => if s.ms ≤ asMillis e then some PollR.Ready else some PollR.Pending

/-! ## Claims C6 and C10 -/

/-- C6: a `Sleep` created when the clock read `t0` with duration `D`
    milliseconds, polled at any instant `t` not before `t0`: while strictly
    less than `D` milliseconds have elapsed the poll returns `Pending`
    (Suspended); once at least `D` milliseconds have elapsed it returns
    `Ready`; and it never returns `Ready` before `D` has elapsed. -/
theorem sleep_poll_correct (t0 D t : Nat) (h : t0 ≤ t) :
    (t - t0 < D * 1000000 → (Sleep.new t0 D).poll t = some PollR.Pending) ∧
    (D * 1000000 ≤ t - t0 → (Sleep.new t0 D).poll t = some PollR.Ready) ∧
    ((Sleep.new t0 D).poll t = some PollR.Ready → D * 1000000 ≤ t - t0) := by
  have hdiv : D ≤ (t - t0) / 1000000 ↔ D * 1000000 ≤ t - t0 :=
    Nat.le_div_iff_mul_le (by norm_num)
  simp only [Sleep.poll, Sleep.elapsed, Sleep.new, asMillis, if_pos h]
  refine ⟨?_, ?_, ?_⟩
  · intro hlt
    rw [if_neg]
    intro hle
    exact absurd (hdiv.mp hle) (Nat.not_le.mpr hlt)
  · intro hge
    rw [if_pos (hdiv.mpr hge)]
  · intro hready
    by_contra hn
    rw [if_neg (fun hle => hn (hdiv.mp hle))] at hready
    exact PollR.noConfusion (Option.some.inj hready)

/-- Witness for C6: a `Sleep` of 2 ms created at time 0, polled at 1 ms
    (1000000 ns), returns `Pending`. -/
theorem sleep_poll_correct_witness :
    (Sleep.new 0 2).poll 1000000 = some PollR.Pending :=
  (sleep_poll_correct 0 2 1000000 (by decide)).1 (by decide)

/-- C10: polling a `Sleep` at a wall-clock instant earlier than its creation
    timestamp panics — `elapsed()` returns `Err` and the `.unwrap()` in
    `Sleep::poll` unwraps it — rather than returning `Pending` or `Ready`;
    the error branch is reached for every such input. -/
theorem sleep_poll_panics_on_backwards_clock (t0 D t : Nat) (h : t < t0) :
    (Sleep.new t0 D).poll t = none := by
  simp only [Sleep.poll, Sleep.elapsed, Sleep.new, if_neg (Nat.not_le.mpr h)]

/-- Witness for C10: a `Sleep` created at time 10 and polled at time 3
    (clock moved backwards) panics. -/
theorem sleep_poll_panics_witness : (Sleep.new 10 1).poll 3 = none :=
  sleep_poll_panics_on_backwards_clock 10 1 3 (by decide)

/-! ## mod lazy: the Lazy once-initialization primitive -/

/-- State of a `std::sync::Once` gate: not yet run, completed successfully, or
    poisoned because the closure passed to `call_once` panicked. -/
inductive OnceState where
  | incomplete
  | complete
  | poisoned
deriving DecidableEq

/-- `lazy::Lazy<T>`: the `Once` gate plus the value cell
    (`UnsafeCell<MaybeUninit<T>>`, modelled as `Option T`: `none` is
    uninitialized storage, `some v` is a written value). -/
structure LazyM (T : Type) where
  once : OnceState
  cell : Option T

/-- `Lazy::new()`: a fresh `Once` and an uninitialized cell. -/
def LazyM.new {T : Type} : LazyM T :=
  { once := OnceState.incomplete, cell := none }

/-- `Lazy::is_initialized`, i.e. `Once::is_completed`: true only after a
    successful `call_once` (false while incomplete and false when poisoned,
    matching the Rust `Once` contract). -/
def LazyM.is_init {T : Type} (l : LazyM T) : Bool :=
  match l.once with
  | OnceState.complete => true
  | _ => false

/-- Failure modes of `get_or_init` when the factory can panic: the caller
    that ran the factory observes the factory panic propagating out of
    `call_once`; after the `Once` is poisoned, every later `call_once`
    panics with the poison error. -/
inductive LazyErr where
  | factoryPanic
  | initializationPoisoned
deriving DecidableEq

/-- `Lazy::get_or_init(func)`. `call_once` runs `func` and writes its result
    into the cell when the `Once` is incomplete (a panic in `func` poisons the
    `Once` before anything is written); a completed `Once` skips the closure
    and the stored value is read back; a poisoned `Once` makes `call_once`
    panic. The factory itself is modelled as `Unit → Except Unit T` so that it
    can panic. The result records the call outcome, the updated `Lazy` state,
    and how many times `func` was invoked. The `complete`/`none` branch is
    unreachable from any state this file constructs (completion always writes
    the cell) but is required for totality. -/
def LazyM.get_or_init {T : Type} (l : LazyM T) (func : Unit → Except Unit T) :
    Except LazyErr T × LazyM T × Nat :=
  match l.once with
  | OnceState.incomplete =>
    match func () with
    | Except.ok v =>
      (Except.ok v, { once := OnceState.complete, cell := some v }, 1)
    | Except.error _ =>
      (Except.error LazyErr.factoryPanic,
       { once := OnceState.poisoned, cell := l.cell }, 1)
  | OnceState.complete =>
    match l.cell with
    | some v => (Except.ok v, l, 0)
    | none => (Except.error LazyErr.initializationPoisoned, l, 0)
  | OnceState.poisoned =>
    (Except.error LazyErr.initializationPoisoned, l, 0)

/-- A sequence of `get_or_init` calls against one `Lazy` value, collecting
    every call result, the final state, and the total number of factory
    invocations across all calls. -/
def LazyM.runCalls {T : Type} (l : LazyM T) :
    List (Unit → Except Unit T) → List (Except LazyErr T) × LazyM T × Nat
  | [] => ([], l, 0)
  | f :: fs =>
    let step := l.get_or_init f
    let restR := step.2.1.runCalls fs
    (step.1 :: restR.1, restR.2.1, step.2.2 + restR.2.2)

/-- Calls against a completed `Lazy` invoke no factory, change nothing, and
    always return the stored value. -/
theorem runCalls_complete {T : Type} (v : T)
    (fs : List (Unit → Except Unit T)) :
    LazyM.runCalls { once := OnceState.complete, cell := some v } fs =
      (fs.map (fun _ => Except.ok v),
       { once := OnceState.complete, cell := some v }, 0) := by
  induction fs with
  | nil => rfl
  | cons f fs ih => simp [LazyM.runCalls, LazyM.get_or_init, ih]

/-- Calls against a poisoned `Lazy` invoke no factory, change nothing, and
    always fail with the poison error. -/
theorem runCalls_poisoned {T : Type} (c : Option T)
    (fs : List (Unit → Except Unit T)) :
    LazyM.runCalls { once := OnceState.poisoned, cell := c } fs =
      (fs.map (fun _ => Except.error LazyErr.initializationPoisoned),
       { once := OnceState.poisoned, cell := c }, 0) := by
  induction fs with
  | nil => rfl
  | cons f fs ih => simp [LazyM.runCalls, LazyM.get_or_init, ih]

/-! ## Claims C2, C7 and C8 -/

/-- C2: starting from a fresh `Lazy`, the first `get_or_init` call invokes its
    factory exactly once (the total factory-invocation count over the whole
    sequence is 1, so no later call — whatever factory it passes — invokes a
    factory), and every call including the first returns the same single
    stored value, which the final state still holds. -/
theorem lazy_get_or_init_once {T : Type} (v : T) (f : Unit → Except Unit T)
    (hf : f () = Except.ok v) (fs : List (Unit → Except Unit T)) :
    LazyM.runCalls LazyM.new (f :: fs) =
      ((f :: fs).map (fun _ => Except.ok v),
       { once := OnceState.complete, cell := some v }, 1) := by
  simp [LazyM.runCalls, LazyM.get_or_init, LazyM.new, hf, runCalls_complete]

/-- Witness for C2: two calls with different factories return the first
    factory value twice, with exactly one factory invocation in total. -/
theorem lazy_get_or_init_once_witness :
    LazyM.runCalls LazyM.new
        [(fun _ => Except.ok 7), (fun _ => Except.ok 9)] =
      ([Except.ok 7, Except.ok 7],
       { once := OnceState.complete, cell := some (7 : Nat) }, 1) :=
  lazy_get_or_init_once 7 (fun _ => Except.ok 7) rfl [fun _ => Except.ok 9]

/-- C7: when the first factory panics, `get_or_init` leaves the `Lazy`
    poisoned: the failing call returns an error (the propagated factory
    panic), nothing is written to the cell, and every later call — with any
    factory — fails with the poison error `initializationPoisoned` without
    invoking its factory and without receiving any (default or corrupt)
    value. -/
theorem lazy_poisoned_after_factory_panic {T : Type}
    (f : Unit → Except Unit T) (hf : f () = Except.error ())
    (fs : List (Unit → Except Unit T)) :
    LazyM.runCalls LazyM.new (f :: fs) =
      (Except.error LazyErr.factoryPanic ::
         fs.map (fun _ => Except.error LazyErr.initializationPoisoned),
       { once := OnceState.poisoned, cell := none }, 1) := by
  simp [LazyM.runCalls, LazyM.get_or_init, LazyM.new, hf, runCalls_poisoned]

/-- Witness for C7: a panicking factory followed by an honest factory; the
    second call still fails with the poison error and the honest factory is
    never invoked (total invocation count stays 1). -/
theorem lazy_poisoned_witness :
    LazyM.runCalls LazyM.new
        [(fun _ => Except.error ()), (fun _ => Except.ok (5 : Nat))] =
      ([Except.error LazyErr.factoryPanic,
        Except.error LazyErr.initializationPoisoned],
       { once := OnceState.poisoned, cell := none }, 1) :=
  lazy_poisoned_after_factory_panic (fun _ => Except.error ()) rfl
    [fun _ => Except.ok (5 : Nat)]

/-- `Drop for Lazy`: when `is_initialized` holds, the value is swapped out of
    the cell and dropped; otherwise no destructor of `T` runs at all. The
    result counts how many times the destructor of `T` runs during the drop. -/
def LazyM.dropDestroys {T : Type} (l : LazyM T) : Nat :=
  if l.is_init then 1 else 0

/-- C8: for any sequence of `get_or_init` calls against a fresh `Lazy`,
    dropping the final state destroys the stored value at most once; it
    destroys it exactly once precisely when a value was stored (never leaks an
    initialized value), and runs no destructor when the storage was never
    initialized; moreover a value is stored exactly when some call returned a
    value, so the drop count is 1 precisely when `get_or_init` ever
    initialized the cell. -/
theorem lazy_drop_exactly_once {T : Type}
    (fs : List (Unit → Except Unit T)) :
    (LazyM.runCalls (LazyM.new (T := T)) fs).2.1.dropDestroys ≤ 1 ∧
    ((LazyM.runCalls (LazyM.new (T := T)) fs).2.1.dropDestroys = 1 ↔
      ∃ v, (LazyM.runCalls (LazyM.new (T := T)) fs).2.1.cell = some v) ∧
    ((LazyM.runCalls (LazyM.new (T := T)) fs).2.1.cell = none →
      (LazyM.runCalls (LazyM.new (T := T)) fs).2.1.dropDestroys = 0) ∧
    ((∃ r ∈ (LazyM.runCalls (LazyM.new (T := T)) fs).1, ∃ v,
        r = Except.ok v) ↔
      ∃ v, (LazyM.runCalls (LazyM.new (T := T)) fs).2.1.cell = some v) := by
  cases fs with
  | nil =>
    simp [LazyM.runCalls, LazyM.new, LazyM.dropDestroys, LazyM.is_init]
  | cons f fs =>
    cases hf : f () with
    | ok v =>
      have h : LazyM.runCalls (LazyM.new (T := T)) (f :: fs) =
          ((f :: fs).map (fun _ => Except.ok v),
           { once := OnceState.complete, cell := some v }, 1) := by
        simp [LazyM.runCalls, LazyM.get_or_init, LazyM.new, hf,
          runCalls_complete]
      rw [h]
      simp [LazyM.dropDestroys, LazyM.is_init]
    | error e =>
      have h : LazyM.runCalls (LazyM.new (T := T)) (f :: fs) =
          (Except.error LazyErr.factoryPanic ::
             fs.map (fun _ => Except.error LazyErr.initializationPoisoned),
           { once := OnceState.poisoned, cell := none }, 1) := by
        simp [LazyM.runCalls, LazyM.get_or_init, LazyM.new, hf,
          runCalls_poisoned]
      rw [h]
      simp [LazyM.dropDestroys, LazyM.is_init]

/-- Witness for C8: after one initializing call, dropping the final state runs
    the destructor of the stored value at most once. -/
theorem lazy_drop_exactly_once_witness :
    (LazyM.runCalls (LazyM.new (T := Nat))
      [fun _ => Except.ok 4]).2.1.dropDestroys ≤ 1 :=
  (lazy_drop_exactly_once [fun _ => Except.ok 4]).1

/-! ## mod runtime: tasks, the queue, the spawner and the scheduler -/

/-- `runtime::Task`: the pinned boxed future inside the task is modelled by
    `life`, which captures the full observable poll behaviour of a future with
    unit output: with `life = some k` the next `k` polls return `Pending` and
    the poll after those returns `Ready`; with `life = none` every poll
    returns `Pending` (the future never completes). `id` identifies the `Arc`
    allocation holding the task, and `block` is the blocking flag set at
    construction and immutable thereafter. -/
structure Task where
  id : Nat
  block : Bool
  life : Option Nat
deriving DecidableEq

/-- `Task::will_block`: reads the `block` field. -/
def Task.will_block (t : Task) : Bool := t.block

/-- `Task::poll`: drive the underlying future one step, returning the poll
    result together with the task holding the future's advanced state. -/
def Task.poll (t : Task) : PollR × Task :=
  match t.life with
  | some 0 => (PollR.Ready, t)
  | some (Nat.succ k) => (PollR.Pending, { t with life := some k })
  | none => (PollR.Pending, t)

/-- `Spawner::inner_spawn`: `push_back` of the task handle onto the queue. -/
def inner_spawn (q : List Task) (t : Task) : List Task := q ++ [t]

/-- `Spawner::inner_spawn_blocking`: `push_front` of the task handle onto the
    queue. -/
def inner_spawn_blocking (q : List Task) (t : Task) : List Task := t :: q

/-- `impl Wake for Task`: re-submit the very same handle to the spawner,
    with front insertion when the blocking flag is set and back insertion
    otherwise. -/
def Task.wake (t : Task) (q : List Task) : List Task :=
  if t.will_block then inner_spawn_blocking q t else inner_spawn q t

/-- The runtime state: the task queue (`Runtime.queue`), the live-task counter
    (`Runtime.tasks`, an integer so that a decrement below zero would be
    visible), and `next`, the supply of fresh `Arc` identities for newly
    constructed tasks. -/
structure RState where
  queue : List Task
  counter : Int
  next : Nat
deriving DecidableEq

/-- `Task::new`: allocate a fresh handle carrying the blocking flag and the
    future (the live-task counter increment is accounted in the spawn
    operations below, which are the only constructors of tasks). -/
def Task.new (i : Nat) (block : Bool) (life : Option Nat) : Task :=
  { id := i, block := block, life := life }

/-- `runtime::spawn`: `Task::new(false, future)` — incrementing the live-task
    counter exactly once — then `inner_spawn`, appending the new task at the
    back of the queue. -/
def RState.spawn (s : RState) (life : Option Nat) : RState :=
  { queue := inner_spawn s.queue (Task.new s.next false life),
    counter := s.counter + 1,
    next := s.next + 1 }

/-- `runtime::block_on`, i.e. `Spawner::spawn_blocking`: `Task::new(true,
    future)` — incrementing the live-task counter exactly once — then
    `inner_spawn_blocking`, inserting the new task at the front of the
    queue. -/
def RState.block_on (s : RState) (life : Option Nat) : RState :=
  { queue := inner_spawn_blocking s.queue (Task.new s.next true life),
    counter := s.counter + 1,
    next := s.next + 1 }

/-- Observable scheduler events: a poll of the task with the given identity,
    recording the poll result, and a `wake()` call on the task with the given
    identity. -/
inductive Ev where
  | polled (i : Nat) (r : PollR)
  | woke (i : Nat)
deriving DecidableEq

/-- The identity of the task an event concerns. -/
def Ev.tid : Ev → Nat
  | Ev.polled i _ => i
  | Ev.woke i => i

/-- Trace of the tight `while let Poll::Pending = task.poll() {}` loop run by
    the scheduler on a blocking task whose future returns `Pending` for `k`
    more polls: `k` `Pending` polls followed by the final `Ready` poll, all on
    the one task `i`. -/
def blockingLoop (i : Nat) : Nat → List Ev
  | 0 => [Ev.polled i PollR.Ready]
  | Nat.succ k => Ev.polled i PollR.Pending :: blockingLoop i k

/-- One turn of the scheduler loop in `Runtime::start`, with the events it
    performs. An empty queue is the `continue` branch. Otherwise the front
    task is popped; if `will_block()` holds it is polled in the tight loop
    until `Ready` and then dropped — the local `Arc` goes out of scope, so
    `Drop for Task` decrements the live-task counter (`none` models the turn
    never finishing because the blocking future is never `Ready`). A
    non-blocking task is polled exactly once: on `Pending` the scheduler
    calls `task.wake()`, which re-enqueues the same handle; on `Ready` the
    handle is dropped without being re-enqueued, decrementing the counter. -/
def schedulerTurn (s : RState) : Option (RState × List Ev) :=
  match s.queue with
  | [] => some (s, [])
  | task :: rest =>
    if task.will_block then
      match task.life with
      | none => none
      | some k =>
        some ({ s with queue := rest, counter := s.counter - 1 },
              blockingLoop task.id k)
    else
      match task.poll with
      | (PollR.Ready, _) =>
        some ({ s with queue := rest, counter := s.counter - 1 },
              [Ev.polled task.id PollR.Ready])
      | (PollR.Pending, t2) =>
        some ({ s with queue := t2.wake rest, counter := s.counter },
              [Ev.polled task.id PollR.Pending, Ev.woke task.id])

/-- The `blockingLoop` trace is `k` `Pending` polls then one `Ready` poll. -/
theorem blockingLoop_eq (i k : Nat) :
    blockingLoop i k =
      List.replicate k (Ev.polled i PollR.Pending) ++
        [Ev.polled i PollR.Ready] := by
  induction k with
  | zero => rfl
  | succ k ih => simp [blockingLoop, ih, List.replicate_succ]

/-- Every event of a `blockingLoop` trace concerns the one task `i`. -/
theorem blockingLoop_tid (i k : Nat) :
    ∀ e ∈ blockingLoop i k, e.tid = i := by
  intro e he
  rw [blockingLoop_eq] at he
  rcases List.mem_append.mp he with h | h
  · rw [List.eq_of_mem_replicate h]
    rfl
  · rw [List.mem_singleton.mp h]
    rfl

/-! ## Claims C1, C3 and C5 -/

/-- C1: one scheduler turn on a state whose queue has `task` at the front.
    If the blocking flag is set and the future is `Ready` after `k` more
    `Pending` polls, the scheduler polls that task `k + 1` times in a tight
    loop — every event of the turn concerns that task alone, so no other
    queued task is polled, and the rest of the queue is untouched — ending
    with the `Ready` poll, and then drops the handle (counter decremented,
    task not re-enqueued); if the blocking future is never `Ready` the turn
    never finishes. If the flag is not set, the task is polled exactly once:
    when that poll is `Ready` the handle is dropped without being re-enqueued;
    when it is `Pending` (either because more polls remain or because the
    future never completes) the scheduler immediately invokes `wake()`, which
    re-enqueues the handle at the back. -/
theorem scheduler_turn_spec (s : RState) (task : Task) (rest : List Task)
    (hq : s.queue = task :: rest) :
    (∀ k, task.block = true → task.life = some k →
      schedulerTurn s =
          some ({ s with queue := rest, counter := s.counter - 1 },
                blockingLoop task.id k) ∧
        blockingLoop task.id k =
          List.replicate k (Ev.polled task.id PollR.Pending) ++
            [Ev.polled task.id PollR.Ready] ∧
        (∀ e ∈ blockingLoop task.id k, e.tid = task.id)) ∧
    (task.block = true → task.life = none → schedulerTurn s = none) ∧
    (task.block = false → task.life = some 0 →
      schedulerTurn s =
        some ({ s with queue := rest, counter := s.counter - 1 },
              [Ev.polled task.id PollR.Ready])) ∧
    (∀ k, task.block = false → task.life = some (k + 1) →
      schedulerTurn s =
        some ({ s with
                  queue := rest ++ [{ task with life := some k }],
                  counter := s.counter },
              [Ev.polled task.id PollR.Pending, Ev.woke task.id])) ∧
    (task.block = false → task.life = none →
      schedulerTurn s =
        some ({ s with queue := rest ++ [task], counter := s.counter },
              [Ev.polled task.id PollR.Pending, Ev.woke task.id])) := by
  refine ⟨?_, ?_, ?_, ?_, ?_⟩
  · intro k hb hl
    refine ⟨?_, blockingLoop_eq task.id k, blockingLoop_tid task.id k⟩
    simp [schedulerTurn, hq, Task.will_block, hb, hl]
  · intro hb hl
    simp [schedulerTurn, hq, Task.will_block, hb, hl]
  · intro hb hl
    simp [schedulerTurn, hq, Task.will_block, hb, Task.poll, hl]
  · intro k hb hl
    simp [schedulerTurn, hq, Task.will_block, hb, Task.poll, hl, Task.wake,
      inner_spawn]
  · intro hb hl
    simp [schedulerTurn, hq, Task.will_block, hb, Task.poll, hl, Task.wake,
      inner_spawn]

/-- Witness for C1: a blocking task whose future needs two `Pending` polls is
    polled three times (two `Pending`, one `Ready`) and dropped in one turn. -/
theorem scheduler_turn_spec_witness :
    schedulerTurn { queue := [Task.new 0 true (some 2)], counter := 1,
                    next := 1 } =
      some ({ queue := [], counter := 0, next := 1 },
            [Ev.polled 0 PollR.Pending, Ev.polled 0 PollR.Pending,
             Ev.polled 0 PollR.Ready]) := by
  have h := (scheduler_turn_spec
    { queue := [Task.new 0 true (some 2)], counter := 1, next := 1 }
    (Task.new 0 true (some 2)) [] rfl).1 2 rfl rfl
  rw [h.1]
  rfl

/-- C3: `spawn` constructs a non-blocking task and appends it at the back of
    the queue, leaving the order of everything already queued intact (so
    non-blocking insertion is FIFO), while `spawn_blocking` / `block_on`
    constructs a blocking task and inserts it at the front, ahead of every
    task already queued. -/
theorem spawn_insertion_order (s : RState) (life lifeB : Option Nat) :
    (s.spawn life).queue = s.queue ++ [Task.new s.next false life] ∧
    (s.block_on lifeB).queue = Task.new s.next true lifeB :: s.queue := by
  exact ⟨rfl, rfl⟩

/-- Witness for C3: spawning onto the fresh runtime puts the new non-blocking
    task at the back of the (empty) queue. -/
theorem spawn_insertion_order_witness :
    (RState.spawn { queue := [], counter := 0, next := 0 } none).queue =
      [] ++ [Task.new 0 false none] :=
  (spawn_insertion_order { queue := [], counter := 0, next := 0 }
    none none).1

/-- C5: `wake()` on a task handle re-submits that very same handle — the
    identical task, with its identity, flag and future state unchanged,
    is a member of the new queue — inserting at the front when the blocking
    flag is set and at the back otherwise. -/
theorem wake_resubmits_same_handle (t : Task) (q : List Task) :
    (t.block = true → t.wake q = t :: q) ∧
    (t.block = false → t.wake q = q ++ [t]) ∧
    t ∈ t.wake q := by
  refine ⟨?_, ?_, ?_⟩
  · intro hb
    simp [Task.wake, Task.will_block, hb, inner_spawn_blocking]
  · intro hb
    simp [Task.wake, Task.will_block, hb, inner_spawn]
  · by_cases hb : t.block
    · simp [Task.wake, Task.will_block, hb, inner_spawn_blocking]
    · simp [Task.wake, Task.will_block, hb, inner_spawn]

/-- Witness for C5: waking a blocking task puts the same handle at the front;
    waking a non-blocking one puts it at the back. -/
theorem wake_resubmits_same_handle_witness :
    Task.wake (Task.new 3 true (some 1)) [Task.new 0 false none] =
      [Task.new 3 true (some 1), Task.new 0 false none] :=
  (wake_resubmits_same_handle (Task.new 3 true (some 1))
    [Task.new 0 false none]).1 rfl

/-! ## Reachable runtime states and the queue invariants -/

/-- Runtime states reachable from the freshly initialized runtime (empty
    queue, live-task counter 0) by the operations the code performs: `spawn`,
    `block_on` / `spawn_blocking`, and complete scheduler turns (each turn
    pops, polls, and wakes or drops as in `Runtime::start`). -/
inductive Reachable : RState → Prop where
  | init : Reachable { queue := [], counter := 0, next := 0 }
  | spawn {s : RState} (life : Option Nat) :
      Reachable s → Reachable (s.spawn life)
  | block_on {s : RState} (life : Option Nat) :
      Reachable s → Reachable (s.block_on life)
  | turn {s s2 : RState} {ev : List Ev} :
      Reachable s → schedulerTurn s = some (s2, ev) → Reachable s2

/-- The inductive invariant of the runtime: the live-task counter equals the
    number of queued (live) tasks, the queued task identities are pairwise
    distinct, and every queued identity is below the allocation supply. -/
theorem reachable_invariant {s : RState} (h : Reachable s) :
    s.counter = (s.queue.length : Int) ∧
    (s.queue.map Task.id).Nodup ∧
    (∀ t ∈ s.queue, t.id < s.next) := by
  induction h with
  | init => simp
  | spawn life _ ih =>
    obtain ⟨hc, hn, hb⟩ := ih
    refine ⟨?_, ?_, ?_⟩
    · simp [RState.spawn, inner_spawn, hc]
    · simp only [RState.spawn, inner_spawn, List.map_append, List.map_cons,
        List.map_nil]
      rw [List.nodup_append]
      refine ⟨hn, List.nodup_singleton _, ?_⟩
      intro i hi hj
      obtain ⟨t, ht, hid⟩ := List.mem_map.mp hi
      have hlt := hb t ht
      rw [List.mem_singleton.mp hj] at hid
      simp [Task.new] at hid
      omega
    · intro t ht
      rcases List.mem_append.mp ht with h1 | h1
      · exact Nat.lt_succ_of_lt (hb t h1)
      · rw [List.mem_singleton.mp h1]
        exact Nat.lt_succ_self _
  | block_on life _ ih =>
    obtain ⟨hc, hn, hb⟩ := ih
    refine ⟨?_, ?_, ?_⟩
    · simp [RState.block_on, inner_spawn_blocking, hc]
    · simp only [RState.block_on, inner_spawn_blocking, List.map_cons]
      rw [List.nodup_cons]
      refine ⟨?_, hn⟩
      intro hmem
      obtain ⟨t, ht, hid⟩ := List.mem_map.mp hmem
      have hlt := hb t ht
      simp [Task.new] at hid
      omega
    · intro t ht
      rcases List.mem_cons.mp ht with h1 | h1
      · rw [h1]
        exact Nat.lt_succ_self _
      · exact Nat.lt_succ_of_lt (hb t h1)
  | turn _ hstep ih =>
    obtain ⟨hc, hn, hb⟩ := ih
    rename_i s s2 ev _
    obtain ⟨q, c, n⟩ := s
    cases q with
    | nil =>
      have h1 : s2 = { queue := [], counter := c, next := n } :=
        (congrArg Prod.fst (Option.some.inj hstep)).symm
      subst h1
      exact ⟨hc, hn, hb⟩
    | cons task rest =>
      simp only [schedulerTurn] at hstep
      by_cases hblk : task.will_block = true
      · rw [if_pos hblk] at hstep
        rcases hlife : task.life with _ | k
        · rw [hlife] at hstep
          exact absurd hstep (by simp)
        · rw [hlife] at hstep
          have h1 : s2 = { queue := rest, counter := c - 1, next := n } :=
            (congrArg Prod.fst (Option.some.inj hstep)).symm
          subst h1
          refine ⟨?_, (List.nodup_cons.mp (by simpa using hn)).2, ?_⟩
          · simp at hc ⊢
            omega
          · intro t ht
            exact hb t (List.mem_cons_of_mem _ ht)
      · rw [if_neg hblk] at hstep
        rw [Bool.not_eq_true] at hblk
        rcases hlife : task.life with _ | k
        · have hpoll : task.poll = (PollR.Pending, task) := by
            simp [Task.poll, hlife]
          rw [hpoll] at hstep
          have h1 : s2 =
              { queue := task.wake rest, counter := c, next := n } :=
            (congrArg Prod.fst (Option.some.inj hstep)).symm
          subst h1
          have hblk2 : task.block = false := hblk
          have hwake : task.wake rest = rest ++ [task] := by
            simp [Task.wake, Task.will_block, hblk2, inner_spawn]
          refine ⟨?_, ?_, ?_⟩
          · rw [hwake]
            simp at hc ⊢
            omega
          · rw [hwake]
            simp only [List.map_append, List.map_cons, List.map_nil]
            rw [List.nodup_append]
            rw [List.map_cons, List.nodup_cons] at hn
            refine ⟨hn.2, List.nodup_singleton _, ?_⟩
            intro i hi hj
            rw [List.mem_singleton.mp hj] at hi
            exact hn.1 hi
          · intro t ht
            rw [hwake] at ht
            rcases List.mem_append.mp ht with h2 | h2
            · exact hb t (List.mem_cons_of_mem _ h2)
            · rw [List.mem_singleton.mp h2]
              exact hb task (List.mem_cons_self _ _)
        · rcases k with _ | k
          · have hpoll : task.poll = (PollR.Ready, task) := by
              simp [Task.poll, hlife]
            rw [hpoll] at hstep
            have h1 : s2 = { queue := rest, counter := c - 1, next := n } :=
              (congrArg Prod.fst (Option.some.inj hstep)).symm
            subst h1
            refine ⟨?_, (List.nodup_cons.mp (by simpa using hn)).2, ?_⟩
            · simp at hc ⊢
              omega
            · intro t ht
              exact hb t (List.mem_cons_of_mem _ ht)
          · have hpoll : task.poll =
                (PollR.Pending, { task with life := some k }) := by
              simp [Task.poll, hlife]
            rw [hpoll] at hstep
            have h1 : s2 =
                { queue := Task.wake { task with life := some k } rest,
                  counter := c, next := n } :=
              (congrArg Prod.fst (Option.some.inj hstep)).symm
            subst h1
            have hblk2 : task.block = false := hblk
            have hwake : Task.wake { task with life := some k } rest =
                rest ++ [{ task with life := some k }] := by
              simp [Task.wake, Task.will_block, hblk2, inner_spawn]
            refine ⟨?_, ?_, ?_⟩
            · rw [hwake]
              simp at hc ⊢
              omega
            · rw [hwake]
              simp only [List.map_append, List.map_cons, List.map_nil]
              rw [List.nodup_append]
              rw [List.map_cons, List.nodup_cons] at hn
              refine ⟨hn.2, List.nodup_singleton _, ?_⟩
              intro i hi hj
              rw [List.mem_singleton.mp hj] at hi
              exact hn.1 hi
            · intro t ht
              rw [hwake] at ht
              rcases List.mem_append.mp ht with h2 | h2
              · exact hb t (List.mem_cons_of_mem _ h2)
              · rw [List.mem_singleton.mp h2]
                exact hb task (List.mem_cons_self _ _)

/-! ## Claims C4 and C9 -/

/-- C4: in every reachable runtime state the live-task counter equals the
    number of constructed-but-not-destroyed tasks (each spawn incremented it
    exactly once when constructing its task, each drop of a completed task
    decremented it exactly once), so the counter is never negative, and
    whenever all spawned tasks have completed and been destroyed — the queue
    is empty — it is back to exactly 0. -/
theorem live_task_counter_correct {s : RState} (h : Reachable s) :
    s.counter = (s.queue.length : Int) ∧
    0 ≤ s.counter ∧
    (s.queue = [] → s.counter = 0) := by
  obtain ⟨hc, _, _⟩ := reachable_invariant h
  refine ⟨hc, ?_, ?_⟩
  · rw [hc]
    exact Int.natCast_nonneg _
  · intro hq
    rw [hc, hq]
    rfl

/-- Witness for C4: after one spawn and one scheduler turn completing the
    task, the counter is back to the queue length (zero). -/
theorem live_task_counter_correct_witness :
    (RState.spawn { queue := [], counter := 0, next := 0 }
        (some 0)).counter =
      (((RState.spawn { queue := [], counter := 0, next := 0 }
        (some 0)).queue.length : Nat) : Int) :=
  (live_task_counter_correct
    (Reachable.spawn (some 0) Reachable.init)).1

/-- C9: in every runtime state reachable by spawn, pop, poll and wake steps,
    each task handle is present in the queue at most once: the queued task
    identities are pairwise distinct, equivalently every identity occurs at
    most once in the queue. -/
theorem task_enqueued_at_most_once {s : RState} (h : Reachable s) :
    (s.queue.map Task.id).Nodup ∧
    ∀ i, (s.queue.map Task.id).count i ≤ 1 := by
  obtain ⟨_, hn, _⟩ := reachable_invariant h
  exact ⟨hn, fun i => List.nodup_iff_count_le_one.mp hn i⟩

/-- Witness for C9: after two spawns and a block_on, the three queued task
    identities are pairwise distinct. -/
theorem task_enqueued_at_most_once_witness :
    ((RState.block_on
        (RState.spawn
          (RState.spawn { queue := [], counter := 0, next := 0 } (some 1))
          none)
        (some 0)).queue.map Task.id).Nodup :=
  (task_enqueued_at_most_once
    (Reachable.block_on (some 0)
      (Reachable.spawn none
        (Reachable.spawn (some 1) Reachable.init)))).1

end Whorl
